import Mathlib

/-!
Shallow embedding of the youtube-smash-stats pipeline.

The definitions below are translated from the repository's Python sources:
  - get_player_names.py   (player-name inference pass)
  - get_character_names.py (character extraction from titles)
  - compute-stats.py      (per-player / per-character aggregation and ranking)

Python strings are modelled as Lean `String` (lists of characters); Python's
str.replace / str.strip / str.lower / str.title are modelled character-wise
for the ASCII data the pipeline handles.  Pandas / csv file handling is out of
scope: a row of the TSV file is a `Record`, a DataFrame is a `List Record`.
-/

/-- Decides whether `pat` is a prefix of `l` (character lists). -/
def isSubListAt (pat l : List Char) : Bool :=
  match pat, l with
  | [], _ => true
  | _ :: _, [] => false
  | a :: as, b :: bs => a == b && isSubListAt as bs

/-- Decides whether `sub` occurs contiguously inside `l`, as Python's
`sub in s` does for strings. -/
def containsSub (l sub : List Char) : Bool :=
  match l with
  | [] => isSubListAt sub []
  | _ :: t => isSubListAt sub l || containsSub t sub

/-- Python's `sub in title` substring test on strings. -/
def strContains (title pat : String) : Bool :=
  containsSub title.toList pat.toList

/-- Python's `str.replace(pat, rep)` on character lists: scan left to right,
replacing non-overlapping occurrences.  Structural recursion on a fuel that the
wrapper instantiates with the list length. -/
def replaceFuel (pat rep : List Char) : Nat → List Char → List Char
  | 0, l => l
  | _ + 1, [] => []
  | n + 1, c :: t =>
    if isSubListAt pat (c :: t) ∧ pat ≠ [] then
      rep ++ replaceFuel pat rep n ((c :: t).drop pat.length)
    else
      c :: replaceFuel pat rep n t

/-- Python's `s.replace(pat, rep)` (plain, non-regex replacement). -/
def pyReplace (s pat rep : String) : String :=
  ⟨replaceFuel pat.toList rep.toList s.toList.length s.toList⟩

/-- Python's `str.strip()` on a character list: drop whitespace from both ends. -/
def stripList (l : List Char) : List Char :=
  ((l.dropWhile Char.isWhitespace).reverse.dropWhile Char.isWhitespace).reverse

/-- Python's `s.strip()`. -/
def pyStrip (s : String) : String :=
  ⟨stripList s.toList⟩

/-- Python's `s.lower()` (ASCII letters). -/
def pyLower (s : String) : String :=
  ⟨s.toList.map Char.toLower⟩

/-- Helper for `pyTitle`: the Bool records whether the previous character was
a letter. -/
def titleAux : Bool → List Char → List Char
  | _, [] => []
  | prev, c :: t =>
    if c.isAlpha then
      (if prev then c.toLower else c.toUpper) :: titleAux true t
    else
      c :: titleAux false t

/-- Python's `s.title()` (ASCII letters): a letter is upper-cased when it
starts a run of letters and lower-cased otherwise. -/
def pyTitle (s : String) : String :=
  ⟨titleAux false s.toList⟩

/-- One row of the video-statistics TSV file, in its column order
(Playlist title, Playlist ID, Video title, Video ID, Player 1, Player 2,
Characters (Extracted), Views, Likes, Comments). -/
structure Record where
  playlistTitle : String
  playlistId : String
  videoTitle : String
  videoId : String
  player1 : String
  player2 : String
  characters : String
  views : Nat
  likes : Nat
  comments : Nat
deriving DecidableEq, Repr

/-- A fallback record for `List.getD`. -/
def emptyRecord : Record :=
  ⟨"", "", "", "", "", "", "", 0, 0, 0⟩

/-! get_player_names.py -/

/-- Column normalization done by `update_players_with_quotes_handling` before
the inference loop: doubled double-quotes are collapsed in the title and in
both player columns, and the player columns are stripped. -/
def normalizeRecord (r : Record) : Record :=
  { r with
    videoTitle := pyReplace r.videoTitle "\"\"" "\""
    player1 := pyStrip (pyReplace r.player1 "\"\"" "\"")
    player2 := pyStrip (pyReplace r.player2 "\"\"" "\"") }

/-- The `existing_players` set of `update_players_with_quotes_handling`: all
non-empty stripped values of the (already normalized) Player 1 and Player 2
columns, as a duplicate-free list (Python builds a set; its iteration order is
arbitrary, here it is a deduplicated column order). -/
def existingPlayers (rs : List Record) : List String :=
  ((((rs.map Record.player1) ++ rs.map Record.player2).filter
    (fun p => p ≠ "")).map pyStrip).dedup

/-- Source function `extract_players_from_title`: the known players that occur
as literal substrings of the title. -/
def extract_players_from_title (title : String) (players : List String) : List String :=
  players.filter (fun player => strContains title player)

/-- The `matched_players = list(set(extract_players_from_title(...)))` step:
the matches, made duplicate-free. -/
def matchedOf (players : List String) (r : Record) : List String :=
  (extract_players_from_title r.videoTitle players).dedup

/-- The per-row body of the inference loop: `matched_players = list(set(...))`,
then the four assignment cases (both empty / slot1 empty / slot2 empty /
both filled). -/
def updateRecord (players : List String) (r : Record) : Record :=
  if 0 < (matchedOf players r).length then
    if r.player1 = "" ∧ r.player2 = "" then
      match matchedOf players r with
      | a :: b :: _ => { r with player1 := a, player2 := b }
      | [a] => { r with player1 := a }
      | [] => r
    else if r.player1 = "" ∧ r.player2 ≠ "" then
      match (matchedOf players r).filter (fun p => p ≠ r.player2) with
      | a :: _ => { r with player1 := a }
      | [] => r
    else if r.player1 ≠ "" ∧ r.player2 = "" then
      match (matchedOf players r).filter (fun p => p ≠ r.player1) with
      | a :: _ => { r with player2 := a }
      | [] => r
    else r
  else r

/-- The `for index, row in df.iterrows()` loop: position `i` of the list is
replaced by its updated row, then the loop moves to `i + 1`; the fuel is the
number of rows still to process. -/
def passSteps (players : List String) : Nat → Nat → List Record → List Record
  | 0, _, df => df
  | n + 1, i, df =>
    passSteps players n (i + 1) (df.set i (updateRecord players (df.getD i emptyRecord)))

/-- Source function `update_players_with_quotes_handling`, minus the file
round-trip: normalize the columns, compute `existing_players` once, then run
the row loop over the whole frame. -/
def update_players_with_quotes_handling (rs : List Record) : List Record :=
  passSteps (existingPlayers (rs.map normalizeRecord))
    (rs.map normalizeRecord).length 0 (rs.map normalizeRecord)

/-! Properties of the inference loop. -/

/-- Rows before the loop position are never touched again, so the loop
commutes with cons. -/
theorem passSteps_shift (players : List String) (r : Record) :
    ∀ (n i : Nat) (df : List Record),
      passSteps players n (i + 1) (r :: df) = r :: passSteps players n i df := by
  intro n
  induction n with
  | zero => intro i df; rfl
  | succ n ih =>
    intro i df
    simp only [passSteps, List.set_cons_succ, List.getD_cons_succ]
    exact ih (i + 1) _

/-- The imperative row loop is the independent per-row map: each row is
updated exactly once, with the same fixed candidate list. -/
theorem passSteps_eq_map (players : List String) :
    ∀ df : List Record, passSteps players df.length 0 df = df.map (updateRecord players) := by
  intro df
  induction df with
  | nil => rfl
  | cons r df ih =>
    simp only [List.length_cons, passSteps, List.set_cons_zero, List.getD_cons_zero,
      List.map_cons]
    rw [passSteps_shift, ih]

/-- The whole pass, as a map over the normalized rows with the candidate
list computed once from the normalized frame. -/
theorem update_pass_eq_map (rs : List Record) :
    update_players_with_quotes_handling rs
      = (rs.map normalizeRecord).map
          (updateRecord (existingPlayers (rs.map normalizeRecord))) := by
  unfold update_players_with_quotes_handling
  exact passSteps_eq_map _ _

/-- Row `i` of the pass output, in terms of row `i` of the input. -/
theorem pass_getD (rs : List Record) (i : Nat) (h : i < rs.length) :
    (update_players_with_quotes_handling rs).getD i emptyRecord
      = updateRecord (existingPlayers (rs.map normalizeRecord))
          (normalizeRecord (rs.getD i emptyRecord)) := by
  rw [update_pass_eq_map]
  simp [List.getD_eq_getElem?_getD, List.getElem?_eq_getElem h]

/-- Row `i` of the normalized frame. -/
theorem getD_map_norm (rs : List Record) (i : Nat) (h : i < rs.length) :
    (rs.map normalizeRecord).getD i emptyRecord
      = normalizeRecord (rs.getD i emptyRecord) := by
  simp [List.getD_eq_getElem?_getD, List.getElem?_eq_getElem h]

/-- Case B and D: a filled Player 1 slot is never overwritten. -/
theorem updateRecord_player1_stable (players : List String) (r : Record)
    (h : r.player1 ≠ "") : (updateRecord players r).player1 = r.player1 := by
  unfold updateRecord
  split_ifs with h0 hA hB hC
  · exact absurd hA.1 h
  · exact absurd hB.1 h
  · split <;> rfl
  · rfl
  · rfl

/-- Case C and D: a filled Player 2 slot is never overwritten. -/
theorem updateRecord_player2_stable (players : List String) (r : Record)
    (h : r.player2 ≠ "") : (updateRecord players r).player2 = r.player2 := by
  unfold updateRecord
  split_ifs with h0 hA hB hC
  · exact absurd hA.2 h
  · split <;> rfl
  · exact absurd hC.2 h
  · rfl
  · rfl

/-- Case D: a record with both slots filled is not mutated. -/
theorem updateRecord_both_filled (players : List String) (r : Record)
    (h1 : r.player1 ≠ "") (h2 : r.player2 ≠ "") : updateRecord players r = r := by
  unfold updateRecord
  split_ifs with h0 hA hB hC
  · exact absurd hA.1 h1
  · exact absurd hB.1 h1
  · exact absurd hC.2 h2
  · rfl
  · rfl

/-- The row update never equates the two slots: a non-empty equal pair in the
output was already present in the input row. -/
theorem updateRecord_no_new_dup (players : List String) (r : Record)
    (h : r.player1 = r.player2 → r.player1 = "") :
    (updateRecord players r).player1 = (updateRecord players r).player2 →
      (updateRecord players r).player1 = "" := by
  unfold updateRecord
  split_ifs with h0 hA hB hC
  · rcases hm : matchedOf players r with _ | ⟨a, _ | ⟨b, rest⟩⟩
    · rw [hm] at h0; simp at h0
    · simp only [hm]
      intro hab
      rw [hab, hA.2]
    · have hnd : (a :: b :: rest).Nodup := by
        have := List.nodup_dedup (extract_players_from_title r.videoTitle players)
        rwa [show (extract_players_from_title r.videoTitle players).dedup
          = matchedOf players r from rfl, hm] at this
      have hab : a ≠ b := by
        intro e
        exact (List.nodup_cons.mp hnd).1 (by rw [e]; exact List.mem_cons_self _ _)
      simp only [hm]
      intro e
      exact absurd e hab
  · rcases hf : (matchedOf players r).filter (fun p => p ≠ r.player2) with _ | ⟨a, rest⟩
    · simp only [hf]
      exact h
    · have ha : a ∈ (matchedOf players r).filter (fun p => p ≠ r.player2) := by
        rw [hf]; exact List.mem_cons_self _ _
      have hane : a ≠ r.player2 := by
        have := (List.mem_filter.mp ha).2
        simpa using this
      simp only [hf]
      intro e
      exact absurd e hane
  · rcases hf : (matchedOf players r).filter (fun p => p ≠ r.player1) with _ | ⟨a, rest⟩
    · simp only [hf]
      exact h
    · have ha : a ∈ (matchedOf players r).filter (fun p => p ≠ r.player1) := by
        rw [hf]; exact List.mem_cons_self _ _
      have hane : a ≠ r.player1 := by
        have := (List.mem_filter.mp ha).2
        simpa using this
      simp only [hf]
      intro e
      exact absurd e.symm hane
  · exact h
  · exact h

/-- The match list of a row is exactly the set of known names occurring as
literal substrings of its title. -/
theorem matchedOf_mem (players : List String) (r : Record) (s : String) :
    s ∈ matchedOf players r ↔ s ∈ players ∧ strContains r.videoTitle s = true := by
  simp [matchedOf, extract_players_from_title, List.mem_dedup, List.mem_filter]

/-- Case A of the row update (both slots empty), by the size of the match
list: two matches assigned, one match assigned to slot 1 only, or no change. -/
theorem updateRecord_both_empty (players : List String) (r : Record)
    (h1 : r.player1 = "") (h2 : r.player2 = "") :
    (2 ≤ (matchedOf players r).length →
      ∃ a b, a ∈ matchedOf players r ∧ b ∈ matchedOf players r ∧ a ≠ b ∧
        updateRecord players r = { r with player1 := a, player2 := b })
    ∧ ((matchedOf players r).length = 1 →
      ∃ a, matchedOf players r = [a] ∧ updateRecord players r = { r with player1 := a })
    ∧ ((matchedOf players r).length = 0 → updateRecord players r = r) := by
  refine ⟨?_, ?_, ?_⟩
  · intro hlen
    rcases hm : matchedOf players r with _ | ⟨a, _ | ⟨b, rest⟩⟩
    · rw [hm] at hlen; simp at hlen
    · rw [hm] at hlen; simp at hlen
    · have hnd : (a :: b :: rest).Nodup := by
        have := List.nodup_dedup (extract_players_from_title r.videoTitle players)
        rwa [show (extract_players_from_title r.videoTitle players).dedup
          = matchedOf players r from rfl, hm] at this
      have hab : a ≠ b := by
        intro e
        exact (List.nodup_cons.mp hnd).1 (by rw [e]; exact List.mem_cons_self _ _)
      refine ⟨a, b, List.mem_cons_self _ _,
        List.mem_cons.mpr (Or.inr (List.mem_cons_self _ _)), hab, ?_⟩
      unfold updateRecord
      rw [hm]
      simp [h1, h2]
  · intro hlen
    rcases hm : matchedOf players r with _ | ⟨a, _ | ⟨b, rest⟩⟩
    · rw [hm] at hlen; simp at hlen
    · refine ⟨a, rfl, ?_⟩
      unfold updateRecord
      rw [hm]
      simp [h1, h2]
    · rw [hm] at hlen; simp at hlen
  · intro hlen
    have hm : matchedOf players r = [] := List.length_eq_zero.mp hlen
    unfold updateRecord
    rw [hm]
    simp

/-- C1 (amended): the inference pass never produces a row whose two player
slots hold the same non-empty name unless that row already carried that equal
non-empty pair (after quote normalization and stripping) when the pass began;
the pass itself never assigns equal names to the two slots. -/
theorem pass_no_new_duplicate_players (rs : List Record) (i : Nat) (h : i < rs.length)
    (heq : ((update_players_with_quotes_handling rs).getD i emptyRecord).player1
      = ((update_players_with_quotes_handling rs).getD i emptyRecord).player2)
    (hne : ((update_players_with_quotes_handling rs).getD i emptyRecord).player1 ≠ "") :
    (normalizeRecord (rs.getD i emptyRecord)).player1
      = (normalizeRecord (rs.getD i emptyRecord)).player2
    ∧ (normalizeRecord (rs.getD i emptyRecord)).player1 ≠ "" := by
  rw [pass_getD rs i h] at heq hne
  by_cases hd : (normalizeRecord (rs.getD i emptyRecord)).player1
      = (normalizeRecord (rs.getD i emptyRecord)).player2 →
      (normalizeRecord (rs.getD i emptyRecord)).player1 = ""
  · exact absurd (updateRecord_no_new_dup _ _ hd heq) hne
  · push_neg at hd
    exact hd

/-- Witness for C1's amended theorem: a one-row frame whose row starts with
both slots equal to the non-empty name Bob. -/
theorem pass_no_new_duplicate_players_witness :
    (normalizeRecord ([(⟨"", "", "x", "", "Bob", "Bob", "", 0, 0, 0⟩ : Record)].getD 0
        emptyRecord)).player1
      = (normalizeRecord ([(⟨"", "", "x", "", "Bob", "Bob", "", 0, 0, 0⟩ : Record)].getD 0
        emptyRecord)).player2
    ∧ (normalizeRecord ([(⟨"", "", "x", "", "Bob", "Bob", "", 0, 0, 0⟩ : Record)].getD 0
        emptyRecord)).player1 ≠ "" :=
  pass_no_new_duplicate_players [⟨"", "", "x", "", "Bob", "Bob", "", 0, 0, 0⟩] 0
    (by decide) (by decide) (by decide)

/-- Counterexample to C1 as stated: a row that enters the pass with
Player 1 = Player 2 = Alice, two non-empty equal strings, still holds that
duplicate pair after one full run of the pass. -/
theorem pass_duplicate_persists_cex :
    ((update_players_with_quotes_handling
        [⟨"", "", "Alice vs Bob", "", "Alice", "Alice", "", 0, 0, 0⟩]).getD 0
        emptyRecord).player1 = "Alice"
    ∧ ((update_players_with_quotes_handling
        [⟨"", "", "Alice vs Bob", "", "Alice", "Alice", "", 0, 0, 0⟩]).getD 0
        emptyRecord).player2 = "Alice"
    ∧ ("Alice" : String) ≠ "" := by decide

/-- C2 (confirmed): a player slot that is non-empty after quote normalization
and stripping keeps its value through the pass, and a row with both slots
filled is not mutated at all. -/
theorem pass_preserves_filled_slots (rs : List Record) (i : Nat) (h : i < rs.length) :
    (((rs.map normalizeRecord).getD i emptyRecord).player1 ≠ "" →
      ((update_players_with_quotes_handling rs).getD i emptyRecord).player1
        = ((rs.map normalizeRecord).getD i emptyRecord).player1)
    ∧ (((rs.map normalizeRecord).getD i emptyRecord).player2 ≠ "" →
      ((update_players_with_quotes_handling rs).getD i emptyRecord).player2
        = ((rs.map normalizeRecord).getD i emptyRecord).player2)
    ∧ (((rs.map normalizeRecord).getD i emptyRecord).player1 ≠ ""
        ∧ ((rs.map normalizeRecord).getD i emptyRecord).player2 ≠ "" →
      (update_players_with_quotes_handling rs).getD i emptyRecord
        = (rs.map normalizeRecord).getD i emptyRecord) := by
  rw [pass_getD rs i h, getD_map_norm rs i h]
  exact ⟨updateRecord_player1_stable _ _, updateRecord_player2_stable _ _,
    fun hb => updateRecord_both_filled _ _ hb.1 hb.2⟩

/-- Witness for C2's theorem: a row with both slots filled (Carol, Dave) whose
title mentions other known-looking names is returned unchanged. -/
theorem pass_preserves_filled_slots_witness :
    (update_players_with_quotes_handling
        [⟨"", "", "Alice vs Bob", "", "Carol", "Dave", "", 0, 0, 0⟩]).getD 0 emptyRecord
      = ([(⟨"", "", "Alice vs Bob", "", "Carol", "Dave", "", 0, 0, 0⟩ : Record)].map
          normalizeRecord).getD 0 emptyRecord :=
  (pass_preserves_filled_slots
    [⟨"", "", "Alice vs Bob", "", "Carol", "Dave", "", 0, 0, 0⟩] 0 (by decide)).2.2
    (by decide)

/-- C3 (confirmed): for a row whose two player slots are empty after
normalization, the match list is exactly the set of known names occurring as
literal substrings of the title; with at least two matches the pass assigns
two distinct matches to the two slots, with exactly one match it fills only
slot 1, and with no match the row is left unchanged. -/
theorem pass_both_empty_slots_cases (rs : List Record) (i : Nat) (h : i < rs.length)
    (h1 : (normalizeRecord (rs.getD i emptyRecord)).player1 = "")
    (h2 : (normalizeRecord (rs.getD i emptyRecord)).player2 = "") :
    (∀ s, s ∈ matchedOf (existingPlayers (rs.map normalizeRecord))
        (normalizeRecord (rs.getD i emptyRecord))
      ↔ s ∈ existingPlayers (rs.map normalizeRecord)
        ∧ strContains (normalizeRecord (rs.getD i emptyRecord)).videoTitle s = true)
    ∧ (2 ≤ (matchedOf (existingPlayers (rs.map normalizeRecord))
        (normalizeRecord (rs.getD i emptyRecord))).length →
      ∃ a b, a ∈ matchedOf (existingPlayers (rs.map normalizeRecord))
          (normalizeRecord (rs.getD i emptyRecord))
        ∧ b ∈ matchedOf (existingPlayers (rs.map normalizeRecord))
          (normalizeRecord (rs.getD i emptyRecord))
        ∧ a ≠ b
        ∧ (update_players_with_quotes_handling rs).getD i emptyRecord
          = { normalizeRecord (rs.getD i emptyRecord) with player1 := a, player2 := b })
    ∧ ((matchedOf (existingPlayers (rs.map normalizeRecord))
        (normalizeRecord (rs.getD i emptyRecord))).length = 1 →
      ∃ a, matchedOf (existingPlayers (rs.map normalizeRecord))
          (normalizeRecord (rs.getD i emptyRecord)) = [a]
        ∧ (update_players_with_quotes_handling rs).getD i emptyRecord
          = { normalizeRecord (rs.getD i emptyRecord) with player1 := a })
    ∧ ((matchedOf (existingPlayers (rs.map normalizeRecord))
        (normalizeRecord (rs.getD i emptyRecord))).length = 0 →
      (update_players_with_quotes_handling rs).getD i emptyRecord
        = normalizeRecord (rs.getD i emptyRecord)) := by
  rw [pass_getD rs i h]
  exact ⟨matchedOf_mem _ _, (updateRecord_both_empty _ _ h1 h2).1,
    (updateRecord_both_empty _ _ h1 h2).2.1, (updateRecord_both_empty _ _ h1 h2).2.2⟩

/-- Witness for C3's theorem: a two-row frame where the second row supplies
the known names Alice and Bob and the first row has empty slots and title
Alice vs Bob; both matches are assigned, in some order, to the two slots. -/
theorem pass_both_empty_slots_cases_witness :
    ∃ a b, a ∈ matchedOf (existingPlayers
        ([⟨"", "", "Alice vs Bob", "", "", "", "", 0, 0, 0⟩,
          ⟨"", "", "y", "", "Alice", "Bob", "", 0, 0, 0⟩].map normalizeRecord))
        (normalizeRecord ([(⟨"", "", "Alice vs Bob", "", "", "", "", 0, 0, 0⟩ : Record),
          ⟨"", "", "y", "", "Alice", "Bob", "", 0, 0, 0⟩].getD 0 emptyRecord))
      ∧ b ∈ matchedOf (existingPlayers
        ([⟨"", "", "Alice vs Bob", "", "", "", "", 0, 0, 0⟩,
          ⟨"", "", "y", "", "Alice", "Bob", "", 0, 0, 0⟩].map normalizeRecord))
        (normalizeRecord ([(⟨"", "", "Alice vs Bob", "", "", "", "", 0, 0, 0⟩ : Record),
          ⟨"", "", "y", "", "Alice", "Bob", "", 0, 0, 0⟩].getD 0 emptyRecord))
      ∧ a ≠ b
      ∧ (update_players_with_quotes_handling
          [⟨"", "", "Alice vs Bob", "", "", "", "", 0, 0, 0⟩,
            ⟨"", "", "y", "", "Alice", "Bob", "", 0, 0, 0⟩]).getD 0 emptyRecord
        = { normalizeRecord ([(⟨"", "", "Alice vs Bob", "", "", "", "", 0, 0, 0⟩ : Record),
            ⟨"", "", "y", "", "Alice", "Bob", "", 0, 0, 0⟩].getD 0 emptyRecord) with
            player1 := a, player2 := b } :=
  (pass_both_empty_slots_cases
    [⟨"", "", "Alice vs Bob", "", "", "", "", 0, 0, 0⟩,
      ⟨"", "", "y", "", "Alice", "Bob", "", 0, 0, 0⟩] 0
    (by decide) (by decide) (by decide)).2.1 (by decide)

/-- C4 (confirmed): the pass equals an independent per-row map that uses the
single candidate list computed, before any row is processed, from the
normalized input columns; membership in that list is exactly being the
stripped value of a non-empty Player 1 or Player 2 column entry, so a name
assigned to a row during the pass is never a fresh candidate for another row. -/
theorem candidate_set_fixed_for_pass (rs : List Record) :
    update_players_with_quotes_handling rs
      = (rs.map normalizeRecord).map
          (updateRecord (existingPlayers (rs.map normalizeRecord)))
    ∧ ∀ s, s ∈ existingPlayers (rs.map normalizeRecord)
        ↔ ∃ r ∈ rs.map normalizeRecord,
            (r.player1 ≠ "" ∧ pyStrip r.player1 = s)
            ∨ (r.player2 ≠ "" ∧ pyStrip r.player2 = s) := by
  refine ⟨update_pass_eq_map rs, fun s => ?_⟩
  simp only [existingPlayers, List.mem_dedup, List.mem_map, List.mem_filter,
    List.mem_append, decide_not, Bool.not_eq_eq_eq_not, Bool.not_true, decide_eq_false_iff_not]
  constructor
  · rintro ⟨v, ⟨hv | hv, hvne⟩, hs⟩
    · obtain ⟨r, hr, rfl⟩ := hv
      exact ⟨r, hr, Or.inl ⟨hvne, hs⟩⟩
    · obtain ⟨r, hr, rfl⟩ := hv
      exact ⟨r, hr, Or.inr ⟨hvne, hs⟩⟩
  · rintro ⟨r, hr, ⟨hne, hs⟩ | ⟨hne, hs⟩⟩
    · exact ⟨r.player1, ⟨Or.inl ⟨r, hr, rfl⟩, hne⟩, hs⟩
    · exact ⟨r.player2, ⟨Or.inr ⟨r, hr, rfl⟩, hne⟩, hs⟩

/-! get_character_names.py -/

/-- Lazy capture of a regex parenthesis group: the characters before the first
closing parenthesis, and the remainder after it; none when no closing
parenthesis follows. -/
def spanToClose : List Char → Option (List Char × List Char)
  | [] => none
  | c :: t =>
    if c = ')' then some ([], t)
    else
      match spanToClose t with
      | some (g, rest) => some (c :: g, rest)
      | none => none

/-- The captures of the pattern "\\((.*?)\\)" on a character list: scan left to
right, and at each opening parenthesis capture lazily up to the next closing
one. The fuel is bounded by the list length. -/
def parenScan : Nat → List Char → List (List Char)
  | 0, _ => []
  | _ + 1, [] => []
  | n + 1, c :: t =>
    if c = '(' then
      match spanToClose t with
      | some (g, rest) => g :: parenScan n rest
      | none => []
    else parenScan n t

/-- All parenthesized substrings of a title, in regex findall order. -/
def parenGroups (title : String) : List (List Char) :=
  parenScan title.toList.length title.toList

/-- The split of a group on every comma or slash, as re.split does. -/
def splitCS : List Char → List (List Char)
  | [] => [[]]
  | c :: t =>
    if c = ',' ∨ c = '/' then [] :: splitCS t
    else
      match splitCS t with
      | h :: r => (c :: h) :: r
      | [] => [[c]]

/-- Token normalization inside extract_characters: strip, then lowercase. -/
def normTok (tok : List Char) : String :=
  ⟨(stripList tok).map Char.toLower⟩

/-- The canonical names collected by extract_characters, in scan order and
with repetitions; tokens absent from the map are dropped. -/
def collectedChars (title : String) (character_map : List (String × String)) : List String :=
  (parenGroups title).flatMap
    (fun g => (splitCS g).filterMap (fun tok => character_map.lookup (normTok tok)))

/-- Boolean lexicographic comparison of character lists by code point: the
order Python uses on strings. -/
def lexLe : List Char → List Char → Bool
  | [], _ => true
  | _ :: _, [] => false
  | a :: as, b :: bs =>
    if a < b then true else if b < a then false else lexLe as bs

/-- Boolean string comparison by code point. -/
def strLeb (a b : String) : Bool :=
  lexLe a.toList b.toList

/-- The set of collected canonical names, sorted: Python's sorted(characters). -/
def sortedChars (title : String) (character_map : List (String × String)) : List String :=
  List.insertionSort (fun a b : String => strLeb a b = true)
    (collectedChars title character_map).dedup

/-- Source function extract_characters: every parenthesized substring of the
title is split on commas and slashes, each token stripped and lowercased and
looked up in the alias map; the hits form a set, returned sorted and
comma-joined. -/
def extract_characters (title : String) (character_map : List (String × String)) : String :=
  String.intercalate ", " (sortedChars title character_map)

/-! Properties of the character extraction. -/

/-- The Boolean comparison decides the lexicographic order: `lexLe l₁ l₂` is
true exactly when `l₂` is not lexicographically below `l₁`. -/
theorem lexLe_iff : ∀ l₁ l₂ : List Char, lexLe l₁ l₂ = true ↔ ¬ List.Lex (· < ·) l₂ l₁ := by
  intro l₁
  induction l₁ with
  | nil =>
    intro l₂
    constructor
    · intro _ h
      cases h
    · intro _
      rfl
  | cons a as ih =>
    intro l₂
    cases l₂ with
    | nil =>
      simp only [lexLe]
      constructor
      · intro h
        cases h
      · intro h
        exact absurd List.Lex.nil h
    | cons b bs =>
      simp only [lexLe]
      rcases lt_trichotomy a b with hab | hab | hab
      · rw [if_pos hab]
        constructor
        · intro _ h
          cases h with
          | cons h => exact absurd hab (lt_irrefl _)
          | rel h => exact absurd (hab.trans h) (lt_irrefl _)
        · intro _
          rfl
      · subst hab
        rw [if_neg (lt_irrefl a), if_neg (lt_irrefl a)]
        rw [ih bs]
        constructor
        · intro h hl
          cases hl with
          | cons h2 => exact h h2
          | rel h2 => exact absurd h2 (lt_irrefl _)
        · intro h hl
          exact h (List.Lex.cons hl)
      · rw [if_neg (by exact fun h => absurd (h.trans hab) (lt_irrefl _)), if_pos hab]
        constructor
        · intro h
          cases h
        · intro h
          exact absurd (List.Lex.rel hab) h
  
/-- The Boolean string comparison decides the standard (code point
lexicographic) order on strings. -/
theorem strLeb_iff (a b : String) : strLeb a b = true ↔ a ≤ b := by
  rw [strLeb, ← not_lt, String.lt_iff_toList_lt]
  exact lexLe_iff a.toList b.toList

instance : IsTotal String (fun a b => strLeb a b = true) :=
  ⟨fun a b => by
    rcases le_total a b with h | h
    · exact Or.inl ((strLeb_iff a b).mpr h)
    · exact Or.inr ((strLeb_iff b a).mpr h)⟩

instance : IsTrans String (fun a b => strLeb a b = true) :=
  ⟨fun a b c hab hbc =>
    (strLeb_iff a c).mpr (le_trans ((strLeb_iff a b).mp hab) ((strLeb_iff b c).mp hbc))⟩

/-- C5 (confirmed): extract_characters returns the comma-joined form of the
sorted, duplicate-free list whose members are exactly the canonical names of
parenthesized, comma-or-slash-split, stripped-and-lowercased tokens found in
the alias map; unmatched tokens are dropped, and a title with no parentheses
or no matching token yields the empty string. -/
theorem extract_characters_spec (title : String) (character_map : List (String × String)) :
    extract_characters title character_map
      = String.intercalate ", " (sortedChars title character_map)
    ∧ (sortedChars title character_map).Nodup
    ∧ (sortedChars title character_map).Sorted (· ≤ ·)
    ∧ (∀ s, s ∈ sortedChars title character_map ↔
        ∃ g ∈ parenGroups title, ∃ tok ∈ splitCS g,
          character_map.lookup (normTok tok) = some s)
    ∧ (parenGroups title = [] → extract_characters title character_map = "")
    ∧ ((∀ g ∈ parenGroups title, ∀ tok ∈ splitCS g,
          character_map.lookup (normTok tok) = none) →
        extract_characters title character_map = "")
    ∧ extract_characters "Match (Mario, Luigi)" [("mario", "Mario"), ("luigi", "Luigi")]
      = "Luigi, Mario" := by
  refine ⟨rfl, ?_, ?_, ?_, ?_, ?_, by decide⟩
  · exact ((List.perm_insertionSort _ _).nodup_iff).mpr (List.nodup_dedup _)
  · have h := List.sorted_insertionSort (fun a b : String => strLeb a b = true)
      (collectedChars title character_map).dedup
    exact List.Pairwise.imp (fun hab => (strLeb_iff _ _).mp hab) h
  · intro s
    simp only [sortedChars, collectedChars, List.mem_insertionSort, List.mem_dedup,
      List.mem_flatMap, List.mem_filterMap]
  · intro h0
    unfold extract_characters sortedChars collectedChars
    rw [h0]
    rfl
  · intro hall
    have hempty : collectedChars title character_map = [] := by
      rw [List.eq_nil_iff_forall_not_mem]
      intro s hs
      simp only [collectedChars, List.mem_flatMap, List.mem_filterMap] at hs
      obtain ⟨g, hg, tok, htok, hlk⟩ := hs
      rw [hall g hg tok htok] at hlk
      cases hlk
    unfold extract_characters sortedChars
    rw [hempty]
    rfl

/-! compute-stats.py -/

/-- Python's s.split(sep) for a non-empty separator, on character lists:
scan left to right, cutting at each non-overlapping occurrence of the
separator; splitting the empty list gives one empty part. The fuel is
bounded by the list length. -/
def splitSepFuel (sep : List Char) : Nat → List Char → List (List Char)
  | 0, l => [l]
  | _ + 1, [] => [[]]
  | n + 1, c :: t =>
    if isSubListAt sep (c :: t) ∧ sep ≠ [] then
      [] :: splitSepFuel sep n ((c :: t).drop sep.length)
    else
      match splitSepFuel sep n t with
      | h :: r => (c :: h) :: r
      | [] => [[c]]

/-- Python's s.split(sep). -/
def pySplit (s sep : String) : List String :=
  (splitSepFuel sep.toList s.toList.length s.toList).map (fun l => ⟨l⟩)

/-- The aggregation key used for players: the column value stripped, then
lowercased. -/
def pKey (s : String) : String :=
  pyLower (pyStrip s)

/-- The player occurrences of one row: each slot whose key is non-empty
contributes one occurrence of its key (the two `if player:` guards). -/
def playerEntities (r : Record) : List String :=
  (if pKey r.player1 ≠ "" then [pKey r.player1] else [])
    ++ (if pKey r.player2 ≠ "" then [pKey r.player2] else [])

/-- The character occurrences of one row: every part of the split of the
Characters (Extracted) field on the separator, with no emptiness filter
(so an empty field yields the single part ""). -/
def charEntities (r : Record) : List String :=
  pySplit r.characters ", "

/-- The four aggregation dictionaries of process_statistics for one entity
kind; keys records the dictionary keys in insertion order. -/
structure Tally where
  views : String → Nat
  likes : String → Nat
  comments : String → Nat
  matchCount : String → Nat
  keys : List String

/-- The empty defaultdicts. -/
def initTally : Tally :=
  ⟨fun _ => 0, fun _ => 0, fun _ => 0, fun _ => 0, []⟩

/-- Source function aggregate_stats: charge one occurrence of an entity with
the row's views, likes and comments, and count one match. -/
def aggregate_stats (entity : String) (views likes comments : Nat) (t : Tally) : Tally :=
  { views := fun k => if k = entity then t.views k + views else t.views k
    likes := fun k => if k = entity then t.likes k + likes else t.likes k
    comments := fun k => if k = entity then t.comments k + comments else t.comments k
    matchCount := fun k => if k = entity then t.matchCount k + 1 else t.matchCount k
    keys := if entity ∈ t.keys then t.keys else t.keys ++ [entity] }

/-- One row's occurrences, each paired with the row counters it is charged
with. -/
def occsOf (ents : Record → List String) (r : Record) : List (String × Nat × Nat × Nat) :=
  (ents r).map (fun e => (e, r.views, r.likes, r.comments))

/-- Left fold of aggregate_stats over a list of occurrences. -/
def tallyFold (l : List (String × Nat × Nat × Nat)) (t : Tally) : Tally :=
  l.foldl (fun t x => aggregate_stats x.1 x.2.1 x.2.2.1 x.2.2.2 t) t

/-- The player dictionaries built by the reading loop of process_statistics. -/
def playerTally (rs : List Record) : Tally :=
  tallyFold (rs.flatMap (occsOf playerEntities)) initTally

/-- The character dictionaries built by the reading loop. -/
def charTally (rs : List Record) : Tally :=
  tallyFold (rs.flatMap (occsOf charEntities)) initTally

/-- The keys of compute_averages that pass the minimum-match threshold. -/
def avgKeys (keys : List String) (match_counts : String → Nat) (min_matches : Nat) :
    List String :=
  keys.filter (fun k => min_matches ≤ match_counts k)

/-- Source function compute_averages: data[key] / match_counts[key] for the
keys passing the threshold (the Python comparison is match_counts[key] >=
min_matches). Divisions are modelled over ℚ. -/
def compute_averages (keys : List String) (data match_counts : String → Nat)
    (min_matches : Nat) : List (String × ℚ) :=
  (avgKeys keys match_counts min_matches).map
    (fun k => (k, (data k : ℚ) / (match_counts k : ℚ)))

/-- The keys of compute_ratios that pass the strict minimum-denominator
threshold. -/
def ratioKeys (keys : List String) (denominator : String → Nat) (min_denominator : Nat) :
    List String :=
  keys.filter (fun k => min_denominator < denominator k)

/-- Source function compute_ratios: numerator[key] / denominator[key] for the
keys passing the strict threshold denominator[key] > min_denominator. -/
def compute_ratios (keys : List String) (numerator denominator : String → Nat)
    (min_denominator : Nat) : List (String × ℚ) :=
  (ratioKeys keys denominator min_denominator).map
    (fun k => (k, (numerator k : ℚ) / (denominator k : ℚ)))

/-! Closed forms of the aggregation fold. -/

/-- Number of occurrences of an entity in a list of entities. -/
def countOcc (e : String) (l : List String) : Nat :=
  (l.filter (fun x => x = e)).length

theorem countOcc_nil (e : String) : countOcc e [] = 0 := rfl

theorem countOcc_cons (e b : String) (l : List String) :
    countOcc e (b :: l) = countOcc e l + (if b = e then 1 else 0) := by
  simp only [countOcc, List.filter_cons]
  by_cases h : b = e
  · simp [h]
  · simp [h]

theorem countOcc_append (e : String) (l₁ l₂ : List String) :
    countOcc e (l₁ ++ l₂) = countOcc e l₁ + countOcc e l₂ := by
  simp [countOcc, List.filter_append]

theorem countOcc_pos_of_mem {e : String} {l : List String} (h : e ∈ l) :
    0 < countOcc e l := by
  induction l with
  | nil => cases h
  | cons b l ih =>
    rw [countOcc_cons]
    rcases List.mem_cons.mp h with h | h
    · subst h
      simp
    · have := ih h
      omega

theorem countOcc_flatMap (e : String) (g : Record → List String) :
    ∀ rs : List Record, countOcc e (rs.flatMap g) = (rs.map (fun r => countOcc e (g r))).sum := by
  intro rs
  induction rs with
  | nil => rfl
  | cons r rs ih => simp [List.flatMap_cons, countOcc_append, ih]

theorem tallyFold_cons (x : String × Nat × Nat × Nat) (l : List (String × Nat × Nat × Nat))
    (t : Tally) :
    tallyFold (x :: l) t = tallyFold l (aggregate_stats x.1 x.2.1 x.2.2.1 x.2.2.2 t) := rfl

theorem tallyFold_matchCount :
    ∀ (l : List (String × Nat × Nat × Nat)) (t : Tally) (e : String),
      (tallyFold l t).matchCount e = t.matchCount e + countOcc e (l.map Prod.fst) := by
  intro l
  induction l with
  | nil => intro t e; simp [tallyFold, countOcc_nil]
  | cons x l ih =>
    intro t e
    rw [tallyFold_cons, ih]
    simp only [aggregate_stats, List.map_cons, countOcc_cons]
    rcases eq_or_ne e x.1 with he | he
    · subst he
      simp
      omega
    · rw [if_neg he, if_neg (Ne.symm he)]
      omega

theorem tallyFold_keys_mem :
    ∀ (l : List (String × Nat × Nat × Nat)) (t : Tally) (e : String),
      e ∈ (tallyFold l t).keys ↔ e ∈ t.keys ∨ e ∈ l.map Prod.fst := by
  intro l
  induction l with
  | nil => intro t e; simp [tallyFold]
  | cons x l ih =>
    intro t e
    rw [tallyFold_cons, ih]
    simp only [aggregate_stats, List.map_cons, List.mem_cons]
    by_cases hk : x.1 ∈ t.keys
    · rw [if_pos hk]
      have hx : e = x.1 → e ∈ t.keys := fun h => by rw [h]; exact hk
      tauto
    · rw [if_neg hk]
      simp only [List.mem_append, List.mem_singleton]
      tauto

theorem map_fst_occsOf (f : Record → List String) (r : Record) :
    (occsOf f r).map Prod.fst = f r := by
  rw [occsOf, List.map_map,
    show (Prod.fst ∘ fun e : String => (e, r.views, r.likes, r.comments)) = id from rfl,
    List.map_id]

theorem map_fst_flatMap_occs (f : Record → List String) (rs : List Record) :
    (rs.flatMap (occsOf f)).map Prod.fst = rs.flatMap f := by
  rw [List.map_flatMap]
  simp [map_fst_occsOf]

/-- Match counts of the aggregation: one per occurrence of the entity among
the rows' entity lists. -/
theorem tally_matchCount_closed (f : Record → List String) (rs : List Record) (e : String) :
    (tallyFold (rs.flatMap (occsOf f)) initTally).matchCount e
      = (rs.map (fun r => countOcc e (f r))).sum := by
  rw [tallyFold_matchCount, map_fst_flatMap_occs, countOcc_flatMap]
  simp [initTally]

/-- Dictionary keys of the aggregation: exactly the entities occurring in some
row's entity list. -/
theorem tally_keys_closed (f : Record → List String) (rs : List Record) (e : String) :
    e ∈ (tallyFold (rs.flatMap (occsOf f)) initTally).keys ↔ ∃ r ∈ rs, e ∈ f r := by
  rw [tallyFold_keys_mem, map_fst_flatMap_occs]
  simp [initTally, List.mem_flatMap]

/-- Every dictionary key has a positive match count. -/
theorem tally_matchCount_pos (f : Record → List String) (rs : List Record) (e : String)
    (h : e ∈ (tallyFold (rs.flatMap (occsOf f)) initTally).keys) :
    0 < (tallyFold (rs.flatMap (occsOf f)) initTally).matchCount e := by
  rw [tally_matchCount_closed]
  obtain ⟨r, hr, he⟩ := (tally_keys_closed f rs e).mp h
  have hpos := countOcc_pos_of_mem he
  have hmem : countOcc e (f r) ∈ rs.map (fun r => countOcc e (f r)) :=
    List.mem_map.mpr ⟨r, hr, rfl⟩
  have := List.single_le_sum (fun x _ => Nat.zero_le x) _ hmem
  omega

/-- Descending comparison on table rows: primary metric descending, ties
broken by the secondary metric, also descending (Python's sorted over the key
pair with reverse=True). -/
def rowGe {α : Type} (p s : α → ℚ) (a b : α) : Prop :=
  p b < p a ∨ (p a = p b ∧ s b ≤ s a)

instance {α : Type} (p s : α → ℚ) : DecidableRel (rowGe p s) := fun a b => by
  unfold rowGe
  infer_instance

instance {α : Type} (p s : α → ℚ) : IsTotal α (rowGe p s) :=
  ⟨fun a b => by
    rcases lt_trichotomy (p a) (p b) with h | h | h
    · exact Or.inr (Or.inl h)
    · rcases le_total (s a) (s b) with hs | hs
      · exact Or.inr (Or.inr ⟨h.symm, hs⟩)
      · exact Or.inl (Or.inr ⟨h, hs⟩)
    · exact Or.inl (Or.inl h)⟩

instance {α : Type} (p s : α → ℚ) : IsTrans α (rowGe p s) :=
  ⟨fun a b c hab hbc => by
    rcases hab with h1 | ⟨h1, h1s⟩
    · rcases hbc with h2 | ⟨h2, h2s⟩
      · exact Or.inl (h2.trans h1)
      · exact Or.inl (by rw [← h2]; exact h1)
    · rcases hbc with h2 | ⟨h2, h2s⟩
      · exact Or.inl (by rw [h1]; exact h2)
      · exact Or.inr ⟨h1.trans h2, h2s.trans h1s⟩⟩

/-- The sorting step of write_statistics: sort the rows by the primary and
secondary key, both descending. -/
def sortTable {α : Type} (p s : α → ℚ) (rows : List α) : List α :=
  List.insertionSort (rowGe p s) rows

/-- Python's round(x, dp) modelled as exact rational rounding to dp decimal
places (round to nearest; binary float rounding is not modelled). -/
def roundQ (dp : Nat) (q : ℚ) : ℚ :=
  (round (q * (10 : ℚ) ^ dp) : ℤ) / (10 : ℚ) ^ dp

/-- Rows of a total-views table: displayed name, total views, match count. -/
def totalViewsRows (disp : String → String) (t : Tally) : List (String × ℚ × ℚ) :=
  t.keys.map (fun k => (disp k, (t.views k : ℚ), (t.matchCount k : ℚ)))

/-- Rows of an average-views table: displayed name, rounded average, match
count. -/
def avgViewsRows (disp : String → String) (t : Tally) (min_matches : Nat) :
    List (String × ℚ × ℚ) :=
  (compute_averages t.keys t.views t.matchCount min_matches).map
    (fun x => (disp x.1, roundQ 2 x.2, (t.matchCount x.1 : ℚ)))

/-- Rows of a ratio table: displayed name, rounded ratio, raw numerator,
total views. -/
def ratioRows (disp : String → String) (t : Tally) (numerator : String → Nat)
    (min_denominator : Nat) : List (String × ℚ × ℚ × ℚ) :=
  (compute_ratios t.keys numerator t.views min_denominator).map
    (fun x => (disp x.1, roundQ 4 x.2, (numerator x.1 : ℚ), (t.views x.1 : ℚ)))

/-- The eight output tables of process_statistics, with their sort keys as in
the source: primary is the row's metric column, secondary the next column. -/
def playersTotalViewsTable (rs : List Record) : List (String × ℚ × ℚ) :=
  sortTable (fun x => x.2.1) (fun x => x.2.2) (totalViewsRows pyTitle (playerTally rs))

def playersAvgViewsTable (rs : List Record) : List (String × ℚ × ℚ) :=
  sortTable (fun x => x.2.1) (fun x => x.2.2) (avgViewsRows pyTitle (playerTally rs) 3)

def playersLikesPerViewTable (rs : List Record) : List (String × ℚ × ℚ × ℚ) :=
  sortTable (fun x => x.2.1) (fun x => x.2.2.1)
    (ratioRows pyTitle (playerTally rs) (playerTally rs).likes 100000)

def playersCommentsPerViewTable (rs : List Record) : List (String × ℚ × ℚ × ℚ) :=
  sortTable (fun x => x.2.1) (fun x => x.2.2.1)
    (ratioRows pyTitle (playerTally rs) (playerTally rs).comments 100000)

def charsTotalViewsTable (rs : List Record) : List (String × ℚ × ℚ) :=
  sortTable (fun x => x.2.1) (fun x => x.2.2) (totalViewsRows (fun k => k) (charTally rs))

def charsAvgViewsTable (rs : List Record) : List (String × ℚ × ℚ) :=
  sortTable (fun x => x.2.1) (fun x => x.2.2) (avgViewsRows (fun k => k) (charTally rs) 0)

def charsLikesPerViewTable (rs : List Record) : List (String × ℚ × ℚ × ℚ) :=
  sortTable (fun x => x.2.1) (fun x => x.2.2.1)
    (ratioRows (fun k => k) (charTally rs) (charTally rs).likes 0)

def charsCommentsPerViewTable (rs : List Record) : List (String × ℚ × ℚ × ℚ) :=
  sortTable (fun x => x.2.1) (fun x => x.2.2.1)
    (ratioRows (fun k => k) (charTally rs) (charTally rs).comments 0)

theorem compute_averages_keys (keys : List String) (data mc : String → Nat) (minM : Nat) :
    (compute_averages keys data mc minM).map Prod.fst = avgKeys keys mc minM := by
  rw [compute_averages, List.map_map,
    show (Prod.fst ∘ fun k : String => (k, (data k : ℚ) / (mc k : ℚ))) = id from rfl,
    List.map_id]

theorem compute_ratios_keys (keys : List String) (num den : String → Nat) (minD : Nat) :
    (compute_ratios keys num den minD).map Prod.fst = ratioKeys keys den minD := by
  rw [compute_ratios, List.map_map,
    show (Prod.fst ∘ fun k : String => (k, (num k : ℚ) / (den k : ℚ))) = id from rfl,
    List.map_id]

theorem avgKeys_mem (keys : List String) (mc : String → Nat) (minM : Nat) (k : String) :
    k ∈ avgKeys keys mc minM ↔ k ∈ keys ∧ minM ≤ mc k := by
  simp [avgKeys, List.mem_filter]

theorem ratioKeys_mem (keys : List String) (den : String → Nat) (minD : Nat) (k : String) :
    k ∈ ratioKeys keys den minD ↔ k ∈ keys ∧ minD < den k := by
  simp [ratioKeys, List.mem_filter]

/-- C6 (confirmed): a player's average_views entry exists exactly when its
match count is at least 3, and its likes_per_view / comments_per_view entries
exist exactly when its total views strictly exceed 100000; at exactly 100000
views the ratio entries are absent, at 100001 they are present. -/
theorem player_threshold_semantics (rs : List Record) (k : String) :
    (k ∈ (compute_averages (playerTally rs).keys (playerTally rs).views
        (playerTally rs).matchCount 3).map Prod.fst
      ↔ k ∈ (playerTally rs).keys ∧ 3 ≤ (playerTally rs).matchCount k)
    ∧ (k ∈ (compute_ratios (playerTally rs).keys (playerTally rs).likes
        (playerTally rs).views 100000).map Prod.fst
      ↔ k ∈ (playerTally rs).keys ∧ 100000 < (playerTally rs).views k)
    ∧ (k ∈ (compute_ratios (playerTally rs).keys (playerTally rs).comments
        (playerTally rs).views 100000).map Prod.fst
      ↔ k ∈ (playerTally rs).keys ∧ 100000 < (playerTally rs).views k)
    ∧ "a" ∉ (compute_ratios
        (playerTally [⟨"", "", "t", "", "A", "", "", 100000, 7, 3⟩]).keys
        (playerTally [⟨"", "", "t", "", "A", "", "", 100000, 7, 3⟩]).likes
        (playerTally [⟨"", "", "t", "", "A", "", "", 100000, 7, 3⟩]).views
        100000).map Prod.fst
    ∧ "a" ∈ (compute_ratios
        (playerTally [⟨"", "", "t", "", "A", "", "", 100001, 7, 3⟩]).keys
        (playerTally [⟨"", "", "t", "", "A", "", "", 100001, 7, 3⟩]).likes
        (playerTally [⟨"", "", "t", "", "A", "", "", 100001, 7, 3⟩]).views
        100000).map Prod.fst := by
  refine ⟨?_, ?_, ?_, ?_, ?_⟩
  · rw [compute_averages_keys]
    exact avgKeys_mem _ _ _ _
  · rw [compute_ratios_keys]
    exact ratioKeys_mem _ _ _ _
  · rw [compute_ratios_keys]
    exact ratioKeys_mem _ _ _ _
  · rw [compute_ratios_keys]
    decide
  · rw [compute_ratios_keys]
    decide

/-- C7 (confirmed): each of the eight output tables is a permutation of its
built rows, sorted by its primary metric descending with ties broken by the
declared secondary metric (match count for the view tables, the raw numerator
for the ratio tables), also descending. -/
theorem tables_sorted_by_metrics (rs : List Record) :
    (List.Sorted (rowGe (fun x => x.2.1) (fun x => x.2.2)) (playersTotalViewsTable rs)
      ∧ (playersTotalViewsTable rs).Perm (totalViewsRows pyTitle (playerTally rs)))
    ∧ (List.Sorted (rowGe (fun x => x.2.1) (fun x => x.2.2)) (playersAvgViewsTable rs)
      ∧ (playersAvgViewsTable rs).Perm (avgViewsRows pyTitle (playerTally rs) 3))
    ∧ (List.Sorted (rowGe (fun x => x.2.1) (fun x => x.2.2.1)) (playersLikesPerViewTable rs)
      ∧ (playersLikesPerViewTable rs).Perm
          (ratioRows pyTitle (playerTally rs) (playerTally rs).likes 100000))
    ∧ (List.Sorted (rowGe (fun x => x.2.1) (fun x => x.2.2.1)) (playersCommentsPerViewTable rs)
      ∧ (playersCommentsPerViewTable rs).Perm
          (ratioRows pyTitle (playerTally rs) (playerTally rs).comments 100000))
    ∧ (List.Sorted (rowGe (fun x => x.2.1) (fun x => x.2.2)) (charsTotalViewsTable rs)
      ∧ (charsTotalViewsTable rs).Perm (totalViewsRows (fun k => k) (charTally rs)))
    ∧ (List.Sorted (rowGe (fun x => x.2.1) (fun x => x.2.2)) (charsAvgViewsTable rs)
      ∧ (charsAvgViewsTable rs).Perm (avgViewsRows (fun k => k) (charTally rs) 0))
    ∧ (List.Sorted (rowGe (fun x => x.2.1) (fun x => x.2.2.1)) (charsLikesPerViewTable rs)
      ∧ (charsLikesPerViewTable rs).Perm
          (ratioRows (fun k => k) (charTally rs) (charTally rs).likes 0))
    ∧ (List.Sorted (rowGe (fun x => x.2.1) (fun x => x.2.2.1)) (charsCommentsPerViewTable rs)
      ∧ (charsCommentsPerViewTable rs).Perm
          (ratioRows (fun k => k) (charTally rs) (charTally rs).comments 0)) :=
  ⟨⟨List.sorted_insertionSort _ _, List.perm_insertionSort _ _⟩,
   ⟨List.sorted_insertionSort _ _, List.perm_insertionSort _ _⟩,
   ⟨List.sorted_insertionSort _ _, List.perm_insertionSort _ _⟩,
   ⟨List.sorted_insertionSort _ _, List.perm_insertionSort _ _⟩,
   ⟨List.sorted_insertionSort _ _, List.perm_insertionSort _ _⟩,
   ⟨List.sorted_insertionSort _ _, List.perm_insertionSort _ _⟩,
   ⟨List.sorted_insertionSort _ _, List.perm_insertionSort _ _⟩,
   ⟨List.sorted_insertionSort _ _, List.perm_insertionSort _ _⟩⟩

/-- Counterexample to C8 as stated: with the character threshold 0, the
average-views guard match_count >= 0 admits a key whose match count is 0, so
the threshold itself does not prevent the zero-denominator division; the
entry is computed with denominator 0. -/
theorem avg_zero_threshold_cex :
    "x" ∈ avgKeys ["x"] (fun _ => 0) 0
    ∧ ((fun _ : String => (0 : Nat)) "x" = 0)
    ∧ compute_averages ["x"] (fun _ => 5) (fun _ => 0) 0
      = [("x", ((5 : Nat) : ℚ) / ((0 : Nat) : ℚ))] := by
  refine ⟨by decide, rfl, rfl⟩

/-- C8 (amended): in the aggregator as run no division has a zero
denominator: the player thresholds (match count >= 3, views > 100000) guard
the player tables, the strict views > 0 threshold guards the character ratio
tables, and character average_views is safe because every aggregated key has
at least one match, not because of its 0 threshold. -/
theorem aggregator_divisions_safe (rs : List Record) :
    (∀ k ∈ avgKeys (playerTally rs).keys (playerTally rs).matchCount 3,
      (playerTally rs).matchCount k ≠ 0)
    ∧ (∀ k ∈ ratioKeys (playerTally rs).keys (playerTally rs).views 100000,
      (playerTally rs).views k ≠ 0)
    ∧ (∀ k ∈ avgKeys (charTally rs).keys (charTally rs).matchCount 0,
      (charTally rs).matchCount k ≠ 0)
    ∧ (∀ k ∈ ratioKeys (charTally rs).keys (charTally rs).views 0,
      (charTally rs).views k ≠ 0) := by
  refine ⟨?_, ?_, ?_, ?_⟩
  · intro k hk
    have h := ((avgKeys_mem _ _ _ _).mp hk).2
    omega
  · intro k hk
    have h := ((ratioKeys_mem _ _ _ _).mp hk).2
    omega
  · intro k hk
    have hkeys := ((avgKeys_mem _ _ _ _).mp hk).1
    have h := tally_matchCount_pos charEntities rs k hkeys
    exact Nat.pos_iff_ne_zero.mp h
  · intro k hk
    have h := ((ratioKeys_mem _ _ _ _).mp hk).2
    omega

/-- C9 (amended): match_count counts, per record, each non-empty player slot
whose key equals the entity (players) and each listed part of the split
Characters (Extracted) field equal to the entity (characters); the aggregated
keys are exactly these slot keys and listed parts — but a record with an empty
Characters (Extracted) field contributes the empty-string part "" as a
character entity, since splitting the empty field yields [""]. -/
theorem match_count_semantics (rs : List Record) (e : String) :
    (playerTally rs).matchCount e = (rs.map (fun r => countOcc e (playerEntities r))).sum
    ∧ (charTally rs).matchCount e = (rs.map (fun r => countOcc e (charEntities r))).sum
    ∧ (e ∈ (playerTally rs).keys ↔ ∃ r ∈ rs, e ∈ playerEntities r)
    ∧ (e ∈ (charTally rs).keys ↔ ∃ r ∈ rs, e ∈ charEntities r) :=
  ⟨tally_matchCount_closed playerEntities rs e, tally_matchCount_closed charEntities rs e,
   tally_keys_closed playerEntities rs e, tally_keys_closed charEntities rs e⟩

/-- Counterexample to C9 as stated: a record whose Characters (Extracted)
field is empty still contributes one character entity, the empty string,
because splitting the empty field on the separator yields [""]. -/
theorem empty_characters_entity_cex :
    "" ∈ (charTally [⟨"", "", "t", "", "A", "B", "", 100, 10, 1⟩]).keys
    ∧ (charTally [⟨"", "", "t", "", "A", "B", "", 100, 10, 1⟩]).matchCount "" = 1
    ∧ charEntities ⟨"", "", "t", "", "A", "B", "", 100, 10, 1⟩ = [""] := by
  refine ⟨?_, ?_, ?_⟩ <;> decide

/-- C10 (confirmed): players are aggregated under the stripped, lowercased
key, so differently-cased column values merge into one entity, re-displayed
title-cased in the total-views rows, while character names are aggregated
verbatim, so differently-cased character names stay distinct entities. -/
theorem player_aggregation_case_insensitive :
    (∀ s : String, pKey s = pyLower (pyStrip s))
    ∧ (∀ (rs : List Record) (e : String), e ∈ (playerTally rs).keys →
        ∃ r ∈ rs, pKey r.player1 = e ∨ pKey r.player2 = e)
    ∧ (playerTally [⟨"", "", "t", "", "Alice", "", "", 10, 1, 1⟩,
        ⟨"", "", "u", "", " ALICE ", "", "", 5, 2, 1⟩]).keys = ["alice"]
    ∧ (playerTally [⟨"", "", "t", "", "Alice", "", "", 10, 1, 1⟩,
        ⟨"", "", "u", "", " ALICE ", "", "", 5, 2, 1⟩]).matchCount "alice" = 2
    ∧ (playerTally [⟨"", "", "t", "", "Alice", "", "", 10, 1, 1⟩,
        ⟨"", "", "u", "", " ALICE ", "", "", 5, 2, 1⟩]).views "alice" = 15
    ∧ (playerTally [⟨"", "", "t", "", "Alice", "", "", 10, 1, 1⟩,
        ⟨"", "", "u", "", " ALICE ", "", "", 5, 2, 1⟩]).likes "alice" = 3
    ∧ totalViewsRows pyTitle (playerTally [⟨"", "", "t", "", "Alice", "", "", 10, 1, 1⟩,
        ⟨"", "", "u", "", " ALICE ", "", "", 5, 2, 1⟩]) = [("Alice", 15, 2)]
    ∧ (charTally [⟨"", "", "t", "", "", "", "Mario", 10, 1, 1⟩,
        ⟨"", "", "u", "", "", "", "mario", 5, 2, 1⟩]).keys = ["Mario", "mario"]
    ∧ (charTally [⟨"", "", "t", "", "", "", "Mario", 10, 1, 1⟩,
        ⟨"", "", "u", "", "", "", "mario", 5, 2, 1⟩]).matchCount "Mario" = 1
    ∧ (charTally [⟨"", "", "t", "", "", "", "Mario", 10, 1, 1⟩,
        ⟨"", "", "u", "", "", "", "mario", 5, 2, 1⟩]).matchCount "mario" = 1 := by
  refine ⟨fun s => rfl, ?_, by decide, by decide, by decide, by decide, ?_, by decide,
    by decide, by decide⟩
  · intro rs e he
    obtain ⟨r, hr, hmem⟩ := (tally_keys_closed playerEntities rs e).mp he
    refine ⟨r, hr, ?_⟩
    simp only [playerEntities, List.mem_append] at hmem
    rcases hmem with h | h
    · by_cases h1 : pKey r.player1 ≠ ""
      · rw [if_pos h1] at h
        simp only [List.mem_singleton] at h
        exact Or.inl h.symm
      · rw [if_neg h1] at h
        cases h
    · by_cases h2 : pKey r.player2 ≠ ""
      · rw [if_pos h2] at h
        simp only [List.mem_singleton] at h
        exact Or.inr h.symm
      · rw [if_neg h2] at h
        cases h
  · decide
